import Mathlib

/-!
# Verification of the sandshrew tool-invocation engine

Shallow embedding of the sandshrew repository's example tools
(`src/example/example_tools.py`), the test-defined tools
(`src/tests/test_module.py`), and — where the library core itself is not in
the source tree — a model of the Executor's dispatch/retry behaviour built
from the specification's own words (each such definition is marked
`Modelled from the spec:`).

Python ints are embedded as `Int`, floats as exact rationals `ℚ`,
dictionaries as association lists with first-match lookup, and raised
exceptions as `Except String` errors.
-/

/-- A Python runtime value, as far as the example tools use them.
`vBool` is kept separate even though Python's `bool` is a subclass of
`int`; `isinstance (· , (int, float))` checks therefore accept it. -/
inductive Val where
  | vInt : Int → Val
  | vFloat : ℚ → Val
  | vBool : Bool → Val
  | vStr : String → Val
  | vNone : Val
  | vList : List Val → Val
  | vDict : List (String × Val) → Val

/-- Python truthiness (`bool(v)`): zero numbers, empty strings/collections,
`False` and `None` are falsy; everything else is truthy. -/
def Val.truthy : Val → Bool
  | .vInt n => n != 0
  | .vFloat q => q != 0
  | .vBool b => b
  | .vStr s => s != ""
  | .vNone => false
  | .vList l => !l.isEmpty
  | .vDict d => !d.isEmpty

/-- Python `str(v)` for the values that the example tools format into
messages. -/
def Val.pyStr : Val → String
  | .vInt n => toString n
  | .vFloat q => toString q
  | .vBool true => "True"
  | .vBool false => "False"
  | .vStr s => s
  | .vNone => "None"
  | .vList _ => "[...]"
  | .vDict _ => "{...}"

/-- A Python `dict` with string keys, embedded as an association list;
lookup takes the first binding for a key. -/
abbrev PyDict := List (String × Val)

/-- `d.get(k)`: `some` of the value when the key is present, else `none`. -/
def pyGet (d : PyDict) (k : String) : Option Val :=
  d.lookup k

-- ==========================================================================
-- Tools defined in the source (src/tests/test_module.py and
-- src/example/example_tools.py)
-- ==========================================================================

/-- `add` from `src/example/example_tools.py` (and `simple_add` from the
tests): `return a + b`. -/
def add (a b : Int) : Int := a + b

/-- `divide` from `src/example/example_tools.py` (same body as the test
module's `divide`): raises `ValueError("Cannot divide by zero")` when
`b == 0`, otherwise returns `a / b`. -/
def divide (a b : ℚ) : Except String ℚ :=
  if b = 0 then Except.error "Cannot divide by zero"
  else Except.ok (a / b)

/-- `get_user_email` from `src/tests/test_module.py`:
`_injected_state.get("user_email", "unknown")`. -/
def get_user_email (state : PyDict) : Val :=
  (pyGet state "user_email").getD (Val.vStr "unknown")

/-- `send_email` from `src/example/example_tools.py`: reads
`_injected_state.get("user_email")`; if that is absent (`None`) or falsy it
returns the failure string, otherwise formats the success message. -/
def send_email (state : PyDict) : String :=
  let user_email := (pyGet state "user_email").getD Val.vNone
  if !user_email.truthy then "no user email found in state."
  else "Sent email to " ++ user_email.pyStr ++ "..."

-- ==========================================================================
-- validate_email (src/example/example_tools.py)
-- ==========================================================================

/-- Character class `[a-zA-Z0-9._%+-]` (the local part of the pattern). -/
def isLocalChar (c : Char) : Bool :=
  c.isAlpha || c.isDigit || c == '.' || c == '_' || c == '%' || c == '+' || c == '-'

/-- Character class `[a-zA-Z0-9.-]` (the domain part of the pattern). -/
def isDomainChar (c : Char) : Bool :=
  c.isAlpha || c.isDigit || c == '.' || c == '-'

/-- Character class `[a-zA-Z]` (the TLD part of the pattern). -/
def isTldChar (c : Char) : Bool :=
  c.isAlpha

/-- Decides membership of `cs` in the language of
`[a-zA-Z0-9.-]+\.[a-zA-Z]{2,}`: split at the last dot (the TLD admits no
dot, so any matching decomposition uses the last one). -/
def checkDomain (cs : List Char) : Bool :=
  !(cs.reverse.dropWhile (fun c => c != '.')).isEmpty &&
    decide (2 ≤ (cs.reverse.takeWhile (fun c => c != '.')).length) &&
    (cs.reverse.takeWhile (fun c => c != '.')).all isTldChar &&
    !(cs.reverse.dropWhile (fun c => c != '.')).tail.isEmpty &&
    (cs.reverse.dropWhile (fun c => c != '.')).tail.all isDomainChar

/-- Decides membership in the language of the full pattern
`^[a-zA-Z0-9._%+-]+@[a-zA-Z0-9.-]+\.[a-zA-Z]{2,}$` against the whole
character list: split at the first `@` (no character class admits `@`, so
a matching decomposition uses the first one). -/
def emailMatch (cs : List Char) : Bool :=
  !(cs.dropWhile (fun c => c != '@')).isEmpty &&
    !(cs.takeWhile (fun c => c != '@')).isEmpty &&
    (cs.takeWhile (fun c => c != '@')).all isLocalChar &&
    checkDomain (cs.dropWhile (fun c => c != '@')).tail

/-- `validate_email` from `src/example/example_tools.py`:
`bool(re.match(pattern, email))` with the pattern above. Python's `$`
matches at the end of the string or just before a single trailing
newline, so a match with one trailing newline stripped also succeeds. -/
def validate_email (email : String) : Bool :=
  emailMatch email.data ||
    (email.data.getLast? == some '\n' && emailMatch email.data.dropLast)

/-- The specification-side reading of the domain part of the pattern:
`cs` decomposes as `[a-zA-Z0-9.-]+` `.` `[a-zA-Z]{2,}`. -/
def DomainShape (cs : List Char) : Prop :=
  ∃ d t : List Char, cs = d ++ '.' :: t ∧ d ≠ [] ∧
    (∀ c ∈ d, isDomainChar c = true) ∧ 2 ≤ t.length ∧ ∀ c ∈ t, isTldChar c = true

/-- The specification-side reading of the whole pattern
`^[a-zA-Z0-9._%+-]+@[a-zA-Z0-9.-]+\.[a-zA-Z]{2,}$` against the whole
character list: local part, `@`, then the domain shape. -/
def EmailShape (cs : List Char) : Prop :=
  ∃ l rest : List Char, cs = l ++ '@' :: rest ∧ l ≠ [] ∧
    (∀ c ∈ l, isLocalChar c = true) ∧ DomainShape rest


-- ==========================================================================
-- process_with_contextual_state (src/example/example_tools.py)
-- ==========================================================================

/-- One record of the injected state's `records` list: a dict from column
names to arbitrary values. -/
abbrev PyRecord := List (String × Val)

/-- The outcome of `process_with_contextual_state`, one constructor per
`return` site of the source. `aggregate op col r` stands for the string
`f"{op}({col}) = {r}"`; `noRecords` for `"No records available in state"`;
`noValidValues col` for `f"No valid values found for column '{col}'"`;
`zeroAverage` for the `return 0.0` inside the `"average"` case; and
`unsupported op` for the wildcard `f"Unsupported operation: {op}"`. -/
inductive ProcessResult where
  | noRecords : ProcessResult
  | noValidValues : String → ProcessResult
  | aggregate : String → String → ℚ → ProcessResult
  | zeroAverage : ProcessResult
  | unsupported : String → ProcessResult

/-- `isinstance(v, (int, float))` together with the numeric value it
denotes; Python's `bool` is a subclass of `int`, so `True`/`False` pass
the check as `1`/`0`. -/
def numericValue : Val → Option ℚ
  | .vInt n => some (n : ℚ)
  | .vFloat q => some q
  | .vBool b => some (if b then 1 else 0)
  | _ => none

/-- The list comprehension of the source:
`[r[column_name] for r in records if column_name in r and
isinstance(r[column_name], (int, float))]`. -/
def columnValues (records : List PyRecord) (column_name : String) : List ℚ :=
  records.filterMap (fun r => (r.lookup column_name).bind numericValue)

/-- Python `min(values)` on a nonempty list (the `[]` case is never used:
Python's `min([])` raises). -/
def listMin : List ℚ → ℚ
  | [] => 0
  | x :: xs => xs.foldl min x

/-- Python `max(values)` on a nonempty list (the `[]` case is never used:
Python's `max([])` raises). -/
def listMax : List ℚ → ℚ
  | [] => 0
  | x :: xs => xs.foldl max x

/-- `process_with_contextual_state` from `src/example/example_tools.py`.
The state parameter is the value of `_injected_state.get("records", [])`
decoded to its documented shape (a list of records); `none` stands for the
`"records"` key being absent, in which case the default `[]` is used. -/
def process_with_contextual_state (state : Option (List PyRecord))
    (column_name operation : String) : ProcessResult :=
  let records := state.getD []
  if records.isEmpty then ProcessResult.noRecords
  else
    let values := columnValues records column_name
    if values.isEmpty then ProcessResult.noValidValues column_name
    else
      match operation with
      | "min" => ProcessResult.aggregate operation column_name (listMin values)
      | "max" => ProcessResult.aggregate operation column_name (listMax values)
      | "average" =>
          if values.length = 0 then ProcessResult.zeroAverage
          else ProcessResult.aggregate operation column_name
            (values.sum / (values.length : ℚ))
      | _ => ProcessResult.unsupported operation

-- ==========================================================================
-- The Executor (the sandshrew library core is not in the source tree:
-- only its tests and callers are, so it is modelled from the spec)
-- ==========================================================================

/-- Modelled from the spec: the possible outcomes of one tool call at the
executor boundary — "Failure classes reported (not raised) by the Executor
boundary: ToolNotFound, ArgumentDecodeError, ExecutionError". -/
inductive ToolCallOutcome where
  | success : Val → ToolCallOutcome
  | toolNotFound : String → ToolCallOutcome
  | argumentDecodeError : String → ToolCallOutcome
  | executionError : String → ToolCallOutcome

/-- Modelled from the spec: a ToolCallRequest `{callId, toolName,
rawArguments}`; the provider-specific decoding of `rawArguments` into a
keyword mapping is abstracted into its outcome (`Except`: a decode
failure or the decoded mapping). -/
structure ToolCallRequest where
  callId : String
  toolName : String
  rawArguments : Except String (List (String × Val))

instance : Inhabited ToolCallRequest :=
  ⟨⟨"", "", Except.error ""⟩⟩

/-- Modelled from the spec: a ToolCallResult `{callId, toolName, outcome}`,
produced once per request. -/
structure ToolCallResult where
  callId : String
  toolName : String
  outcome : ToolCallOutcome

/-- Modelled from the spec: a registered Tool — name, `retryCount`,
`injectState` flag, and the underlying callable. The callable is indexed
by the attempt number (1, 2, ...) so that a call that can fail on some
attempts and succeed on others is representable; a Python exception is an
`Except.error` carrying its message. -/
structure Tool where
  name : String
  retryCount : Nat
  injectState : Bool
  run : Nat → List (String × Val) → Except String Val

/-- Modelled from the spec, 4.3 step 5 and design note 9: the bounded
retry loop as an explicit attempt machine. `attemptFrom a r f` performs
attempt `a` and up to `r` further attempts; it returns the terminal
outcome together with the number of invocations of `f` made. -/
def attemptFrom : Nat → Nat → (Nat → Except String Val) → Except String Val × Nat
  | a, 0, f =>
      match f a with
      | Except.ok v => (Except.ok v, 1)
      | Except.error e => (Except.error e, 1)
  | a, r + 1, f =>
      match f a with
      | Except.ok v => (Except.ok v, 1)
      | Except.error _ =>
          let res := attemptFrom (a + 1) r f
          (res.1, res.2 + 1)

/-- Modelled from the spec: "retry up to `config.retryCount` additional
times (so `retryCount = 1` means at most one retry after the first
failure, i.e. up to two attempts total)". Returns the terminal outcome and
the total number of invocations made. -/
def runWithRetry (retryCount : Nat) (f : Nat → Except String Val) :
    Except String Val × Nat :=
  attemptFrom 1 retryCount f

/-- Modelled from the spec: Executor/AsyncExecutor instance state —
`{tools, injectedState, useParallel, maxConcurrency, isAsync}` (the
provider adapter plays no role in the claims settled here). -/
structure Executor where
  tools : List Tool
  injectedState : PyDict
  useParallel : Bool
  maxConcurrency : Nat
  isAsync : Bool

/-- Modelled from the spec: the usage error raised when the wrong-mode
entry point is called (a `RuntimeError`-class programmer error, never
retried and never turned into a ToolCallResult). -/
inductive UsageError where
  | wrongMode : UsageError

/-- Modelled from the spec, 4.3 steps 2-5: resolve the tool by name
(unknown ⇒ `toolNotFound`), take the decoded arguments (failure ⇒
`argumentDecodeError`), merge the injected state under the reserved name
`_injected_state` (prepended, so it overrides any caller-supplied binding
under first-match lookup), run with retry, and wrap a terminal failure as
an `executionError` result. Also returns the number of invocations of the
underlying callable. -/
def Executor.executeCallCount (ex : Executor) (req : ToolCallRequest) :
    ToolCallResult × Nat :=
  match ex.tools.find? (fun t => t.name == req.toolName) with
  | none => (⟨req.callId, req.toolName, ToolCallOutcome.toolNotFound req.toolName⟩, 0)
  | some t =>
      match req.rawArguments with
      | Except.error e =>
          (⟨req.callId, req.toolName, ToolCallOutcome.argumentDecodeError e⟩, 0)
      | Except.ok args =>
          let args :=
            if t.injectState then
              ("_injected_state", Val.vDict ex.injectedState) :: args
            else args
          let r := runWithRetry t.retryCount (fun a => t.run a args)
          match r.1 with
          | Except.ok v =>
              (⟨req.callId, req.toolName, ToolCallOutcome.success v⟩, r.2)
          | Except.error e =>
              (⟨req.callId, req.toolName, ToolCallOutcome.executionError e⟩, r.2)

/-- Modelled from the spec: one ToolCallResult per request. -/
def Executor.executeCall (ex : Executor) (req : ToolCallRequest) : ToolCallResult :=
  (ex.executeCallCount req).1

/-- Modelled from the spec, 4.3 and section 5: `execute(response)` — the
sync entry point. On an async-configured Executor it fails immediately
with the usage error; otherwise it runs the requests sequentially, in
request order, and collects one result per request in that order. -/
def Executor.execute (ex : Executor) (reqs : List ToolCallRequest) :
    Except UsageError (List ToolCallResult) :=
  if ex.isAsync then Except.error UsageError.wrongMode
  else Except.ok (reqs.map ex.executeCall)

/-- Modelled from the spec, section 5: "the result collection's order is
request order ... implemented via index-correlated slots, not
append-on-completion". Results are written into a slot array indexed by
request position, in the order the calls complete; `completionOrder` is
the sequence of request indices in completion order. -/
def Executor.collectResults (ex : Executor) (reqs : List ToolCallRequest)
    (completionOrder : List Nat) : List (Option ToolCallResult) :=
  completionOrder.foldl
    (fun slots i => slots.set i (some (ex.executeCall (reqs.getD i default))))
    (List.replicate reqs.length none)

/-- Modelled from the spec: `aexecute(response)` — the async entry point.
On a sync-configured Executor it fails immediately with the usage error.
With `useParallel = false` the calls complete in request order; with
`useParallel = true` they complete in the scheduler-dependent
`completionOrder` (the abstraction of per-call latency); either way each
result is written into its request's slot. -/
def Executor.aexecuteWith (ex : Executor) (reqs : List ToolCallRequest)
    (completionOrder : List Nat) : Except UsageError (List (Option ToolCallResult)) :=
  if !ex.isAsync then Except.error UsageError.wrongMode
  else Except.ok (ex.collectResults reqs
    (if ex.useParallel then completionOrder else List.range reqs.length))

/-- The `add` tool as registered by the `@sand_tool(retry_count=1, ...)`
decorator in `src/example/example_tools.py`: argument binding from the
decoded keyword mapping (a missing or non-int argument is a Python
`TypeError`, an `Except.error` here), then the `add` function itself. -/
def addTool : Tool where
  name := "add"
  retryCount := 1
  injectState := false
  run := fun _ args =>
    match args.lookup "a", args.lookup "b" with
    | some (Val.vInt a), some (Val.vInt b) => Except.ok (Val.vInt (add a b))
    | _, _ => Except.error "TypeError: add() missing or invalid arguments"

/-- The `divide` tool as registered by the `@sand_tool(retry_count=1, ...)`
decorator: argument binding, then the `divide` function, whose
`ValueError` propagates out of the call as an `Except.error`. -/
def divideTool : Tool where
  name := "divide"
  retryCount := 1
  injectState := false
  run := fun _ args =>
    match (args.lookup "a").bind numericValue, (args.lookup "b").bind numericValue with
    | some a, some b => (divide a b).map Val.vFloat
    | _, _ => Except.error "TypeError: divide() missing or invalid arguments"

-- ==========================================================================
-- Helper lemmas
-- ==========================================================================

/-- If every attempt fails, the bounded retry loop makes exactly `r + 1`
invocations and terminates with an error. -/
lemma attemptFrom_fail (f : Nat → Except String Val)
    (hfail : ∀ i, ∃ e, f i = Except.error e) :
    ∀ (r a : Nat), (attemptFrom a r f).2 = r + 1 ∧
      ∃ e, (attemptFrom a r f).1 = Except.error e := by
  intro r
  induction r with
  | zero =>
      intro a
      obtain ⟨e, he⟩ := hfail a
      refine ⟨?_, e, ?_⟩ <;> simp [attemptFrom, he]
  | succ r ih =>
      intro a
      obtain ⟨e, he⟩ := hfail a
      obtain ⟨h1, e2, he2⟩ := ih (a + 1)
      have hstep : attemptFrom a (r + 1) f =
          ((attemptFrom (a + 1) r f).1, (attemptFrom (a + 1) r f).2 + 1) := by
        simp only [attemptFrom, he]
      rw [hstep]
      exact ⟨by rw [h1], e2, he2⟩

lemma get_set_self {α : Type} :
    ∀ (l : List α) (i : Nat) (v : α), i < l.length → (l.set i v)[i]? = some v := by
  intro l
  induction l with
  | nil => intro i v h; simp at h
  | cons x t ih =>
      intro i v h
      cases i with
      | zero => simp [List.set]
      | succ i =>
          simp only [List.set, List.getElem?_cons_succ]
          exact ih i v (by simpa using h)

lemma get_set_ne {α : Type} :
    ∀ (l : List α) (i j : Nat) (v : α), i ≠ j → (l.set i v)[j]? = l[j]? := by
  intro l
  induction l with
  | nil => intro i j v _; simp [List.set]
  | cons x t ih =>
      intro i j v hij
      cases i with
      | zero =>
          cases j with
          | zero => exact absurd rfl hij
          | succ j => simp [List.set]
      | succ i =>
          cases j with
          | zero => simp [List.set]
          | succ j =>
              simp only [List.set, List.getElem?_cons_succ]
              exact ih i j v (fun h => hij (by rw [h]))

lemma set_of_le {α : Type} :
    ∀ (l : List α) (i : Nat) (v : α), l.length ≤ i → l.set i v = l := by
  intro l
  induction l with
  | nil => intro i v _; rfl
  | cons x t ih =>
      intro i v h
      cases i with
      | zero => simp at h
      | succ i => simp [List.set, ih i v (by simpa using h)]

/-- Writing slots `s.set i (g i)` in any order: afterwards, an in-range
index that was written holds `g j`; any other index is unchanged. -/
lemma foldl_set_get {α : Type} (g : Nat → α) :
    ∀ (l : List Nat) (init : List α) (j : Nat),
      (l.foldl (fun s i => s.set i (g i)) init)[j]? =
        if j ∈ l ∧ j < init.length then some (g j) else init[j]? := by
  intro l
  induction l with
  | nil => intro init j; simp
  | cons i t ih =>
      intro init j
      rw [List.foldl_cons, ih]
      rw [List.length_set]
      by_cases hjt : j ∈ t ∧ j < init.length
      · rw [if_pos hjt]
        have hc : j ∈ i :: t ∧ j < init.length := ⟨List.mem_cons_of_mem i hjt.1, hjt.2⟩
        rw [if_pos hc]
      · rw [if_neg hjt]
        by_cases hji : j = i
        · subst hji
          by_cases hlen : j < init.length
          · rw [get_set_self init j (g j) hlen]
            have hc : j ∈ j :: t ∧ j < init.length := ⟨List.mem_cons_self j t, hlen⟩
            rw [if_pos hc]
          · rw [set_of_le init j (g j) (Nat.le_of_not_lt hlen)]
            have hc : ¬(j ∈ j :: t ∧ j < init.length) := fun h => hlen h.2
            rw [if_neg hc]
        · rw [get_set_ne init i j (g i) (fun h => hji h.symm)]
          have hc : ¬(j ∈ i :: t ∧ j < init.length) := by
            rintro ⟨hm, hl⟩
            rcases List.mem_cons.mp hm with h | h
            · exact hji h
            · exact hjt ⟨h, hl⟩
          rw [if_neg hc]

lemma takeWhile_middle (p : Char → Bool) :
    ∀ (l : List Char) (c : Char) (r : List Char),
      (∀ x ∈ l, p x = true) → p c = false → (l ++ c :: r).takeWhile p = l := by
  intro l
  induction l with
  | nil => intro c r _ hc; simp [List.takeWhile_cons, hc]
  | cons x t ih =>
      intro c r hl hc
      have hx : p x = true := hl x (List.mem_cons_self _ _)
      simp [List.takeWhile_cons, hx,
        ih c r (fun y hy => hl y (List.mem_cons_of_mem _ hy)) hc]

lemma dropWhile_middle (p : Char → Bool) :
    ∀ (l : List Char) (c : Char) (r : List Char),
      (∀ x ∈ l, p x = true) → p c = false → (l ++ c :: r).dropWhile p = c :: r := by
  intro l
  induction l with
  | nil => intro c r _ hc; simp [List.dropWhile_cons, hc]
  | cons x t ih =>
      intro c r hl hc
      have hx : p x = true := hl x (List.mem_cons_self _ _)
      simp [List.dropWhile_cons, hx,
        ih c r (fun y hy => hl y (List.mem_cons_of_mem _ hy)) hc]

/-- A nonempty `dropWhile` result starts with a character failing the
predicate, and the list splits as `takeWhile ++ head :: tail`. -/
lemma dropWhile_decomp (p : Char → Bool) :
    ∀ (l : List Char) (c : Char) (r : List Char), l.dropWhile p = c :: r →
      l = l.takeWhile p ++ c :: r ∧ p c = false := by
  intro l
  induction l with
  | nil => intro c r h; simp [List.dropWhile] at h
  | cons x t ih =>
      intro c r h
      rw [List.dropWhile_cons] at h
      by_cases hx : p x
      · rw [if_pos hx] at h
        obtain ⟨ht, hc⟩ := ih c r h
        constructor
        · rw [List.takeWhile_cons, if_pos hx, List.cons_append, ← ht]
        · exact hc
      · rw [if_neg hx] at h
        injection h with h1 h2
        subst h1
        subst h2
        constructor
        · rw [List.takeWhile_cons, if_neg hx, List.nil_append]
        · exact Bool.eq_false_iff.mpr hx

lemma checkDomain_iff (cs : List Char) : checkDomain cs = true ↔ DomainShape cs := by
  constructor
  · intro h
    unfold checkDomain at h
    simp only [Bool.and_eq_true, Bool.not_eq_true', List.isEmpty_eq_false,
      decide_eq_true_eq, List.all_eq_true] at h
    obtain ⟨⟨⟨⟨hne, hlen⟩, htld⟩, hdne⟩, hdom⟩ := h
    obtain ⟨c0, dRev, hc⟩ : ∃ c0 dRev,
        cs.reverse.dropWhile (fun c => c != '.') = c0 :: dRev := by
      cases hx : cs.reverse.dropWhile (fun c => c != '.') with
      | nil => rw [hx] at hne; exact absurd rfl hne
      | cons c0 dRev => exact ⟨c0, dRev, rfl⟩
    obtain ⟨hsplit, hc0⟩ := dropWhile_decomp (fun c => c != '.') cs.reverse c0 dRev hc
    have hc0' : c0 = '.' := by simpa using hc0
    subst hc0'
    rw [hc] at hdne hdom
    refine ⟨dRev.reverse, (cs.reverse.takeWhile (fun c => c != '.')).reverse, ?_, ?_, ?_, ?_, ?_⟩
    · have hthis := congrArg List.reverse hsplit
      rw [List.reverse_reverse] at hthis
      conv_lhs => rw [hthis]
      simp [List.reverse_append]
    · intro hnil
      have : dRev = [] := by simpa using congrArg List.reverse hnil
      rw [this] at hdne
      simp at hdne
    · intro c hcmem
      exact hdom c (by simpa using List.mem_reverse.mp hcmem)
    · simpa using hlen
    · intro c hcmem
      exact htld c (List.mem_reverse.mp hcmem)
  · rintro ⟨d, t, hcs, hdne, hdom, hlen, htld⟩
    have htnd : ∀ c ∈ t.reverse, (c != '.') = true := by
      intro c hcmem
      have hmem := htld c (List.mem_reverse.mp hcmem)
      have hne : c ≠ '.' := by
        intro hcc
        rw [hcc] at hmem
        exact absurd hmem (by decide)
      simpa using hne
    have hrev : cs.reverse = t.reverse ++ '.' :: d.reverse := by
      rw [hcs]
      simp [List.reverse_append]
    unfold checkDomain
    rw [hrev, takeWhile_middle _ _ _ _ htnd (by simp),
      dropWhile_middle _ _ _ _ htnd (by simp)]
    simp only [Bool.and_eq_true, Bool.not_eq_true', List.isEmpty_eq_false,
      decide_eq_true_eq, List.all_eq_true, List.tail_cons]
    refine ⟨⟨⟨⟨by simp, by simpa using hlen⟩, ?_⟩, by simpa using hdne⟩, ?_⟩
    · intro c hcmem
      exact htld c (List.mem_reverse.mp hcmem)
    · intro c hcmem
      exact hdom c (List.mem_reverse.mp hcmem)

lemma emailMatch_iff (cs : List Char) : emailMatch cs = true ↔ EmailShape cs := by
  constructor
  · intro h
    unfold emailMatch at h
    simp only [Bool.and_eq_true, Bool.not_eq_true', List.isEmpty_eq_false,
      List.all_eq_true] at h
    obtain ⟨⟨⟨hne, hlne⟩, hloc⟩, hdom⟩ := h
    obtain ⟨c0, rs, hc⟩ : ∃ c0 rs,
        cs.dropWhile (fun c => c != '@') = c0 :: rs := by
      cases hx : cs.dropWhile (fun c => c != '@') with
      | nil => rw [hx] at hne; exact absurd rfl hne
      | cons c0 rs => exact ⟨c0, rs, rfl⟩
    obtain ⟨hsplit, hc0⟩ := dropWhile_decomp (fun c => c != '@') cs c0 rs hc
    have hc0' : c0 = '@' := by simpa using hc0
    subst hc0'
    rw [hc] at hdom
    refine ⟨cs.takeWhile (fun c => c != '@'), rs, hsplit, hlne, hloc, ?_⟩
    exact (checkDomain_iff rs).mp (by simpa using hdom)
  · rintro ⟨l, rest, hcs, hlne, hloc, hdom⟩
    have hlna : ∀ c ∈ l, (c != '@') = true := by
      intro c hcmem
      have hmem := hloc c hcmem
      have hne : c ≠ '@' := by
        intro hcc
        rw [hcc] at hmem
        exact absurd hmem (by decide)
      simpa using hne
    unfold emailMatch
    rw [hcs, takeWhile_middle _ _ _ _ hlna (by simp),
      dropWhile_middle _ _ _ _ hlna (by simp)]
    simp only [Bool.and_eq_true, Bool.not_eq_true', List.isEmpty_eq_false,
      List.all_eq_true, List.tail_cons]
    exact ⟨⟨⟨by simp, hlne⟩, hloc⟩, (checkDomain_iff rest).mpr hdom⟩

lemma foldl_min_mem : ∀ (xs : List ℚ) (x : ℚ), xs.foldl min x ∈ x :: xs := by
  intro xs
  induction xs with
  | nil => intro x; simp
  | cons y ys ih =>
      intro x
      have h := ih (min x y)
      rw [List.foldl_cons]
      rcases List.mem_cons.mp h with h1 | h1
      · rcases min_choice x y with h2 | h2 <;> rw [h1, h2] <;> simp
      · simp [List.mem_cons_of_mem, h1]

lemma foldl_min_le : ∀ (xs : List ℚ) (x v : ℚ), v ∈ x :: xs → xs.foldl min x ≤ v := by
  intro xs
  induction xs with
  | nil =>
      intro x v hv
      rcases List.mem_cons.mp hv with h | h
      · simp [h]
      · simp at h
  | cons y ys ih =>
      intro x v hv
      rw [List.foldl_cons]
      have hmem : ys.foldl min (min x y) ≤ min x y :=
        ih (min x y) (min x y) (List.mem_cons_self _ _)
      rcases List.mem_cons.mp hv with h | h
      · rw [h]
        exact le_trans hmem (min_le_left x y)
      · rcases List.mem_cons.mp h with h1 | h1
        · rw [h1]
          exact le_trans hmem (min_le_right x y)
        · exact ih (min x y) v (List.mem_cons_of_mem _ h1)

lemma foldl_max_mem : ∀ (xs : List ℚ) (x : ℚ), xs.foldl max x ∈ x :: xs := by
  intro xs
  induction xs with
  | nil => intro x; simp
  | cons y ys ih =>
      intro x
      have h := ih (max x y)
      rw [List.foldl_cons]
      rcases List.mem_cons.mp h with h1 | h1
      · rcases max_choice x y with h2 | h2 <;> rw [h1, h2] <;> simp
      · simp [List.mem_cons_of_mem, h1]

lemma foldl_max_ge : ∀ (xs : List ℚ) (x v : ℚ), v ∈ x :: xs → v ≤ xs.foldl max x := by
  intro xs
  induction xs with
  | nil =>
      intro x v hv
      rcases List.mem_cons.mp hv with h | h
      · simp [h]
      · simp at h
  | cons y ys ih =>
      intro x v hv
      rw [List.foldl_cons]
      have hmem : max x y ≤ ys.foldl max (max x y) :=
        ih (max x y) (max x y) (List.mem_cons_self _ _)
      rcases List.mem_cons.mp hv with h | h
      · rw [h]
        exact le_trans (le_max_left x y) hmem
      · rcases List.mem_cons.mp h with h1 | h1
        · rw [h1]
          exact le_trans (le_max_right x y) hmem
        · exact ih (max x y) v (List.mem_cons_of_mem _ h1)

/-- Any completion order that is a permutation of the request indices
fills every slot with its own request's result: the slot array equals the
sequential, request-ordered result list. -/
lemma collectResults_eq_map (ex : Executor) (reqs : List ToolCallRequest)
    (order : List Nat) (hperm : order.Perm (List.range reqs.length)) :
    ex.collectResults reqs order = reqs.map (fun r => some (ex.executeCall r)) := by
  apply List.ext_getElem?
  intro j
  unfold Executor.collectResults
  rw [foldl_set_get (fun i => some (ex.executeCall (reqs.getD i default)))]
  rw [List.length_replicate]
  have hmemiff : j ∈ order ↔ j < reqs.length := by
    rw [hperm.mem_iff, List.mem_range]
  rw [List.getElem?_map]
  by_cases hj : j < reqs.length
  · rw [if_pos ⟨hmemiff.mpr hj, hj⟩]
    rw [List.getElem?_eq_getElem hj]
    have hget : reqs.getD j default = reqs[j] := by
      rw [List.getD_eq_getElem?_getD, List.getElem?_eq_getElem hj]
      rfl
    rw [hget]
    rfl
  · have hcond : ¬(j ∈ order ∧ j < reqs.length) := fun h => hj h.2
    rw [if_neg hcond]
    rw [List.getElem?_eq_none (by simpa using Nat.le_of_not_lt hj),
      List.getElem?_eq_none (by simpa using Nat.le_of_not_lt hj)]
    rfl

/-- The success message of `send_email` never collides with its failure
message (they differ at the first character). -/
lemma sent_ne_missing (s : String) :
    ("Sent email to " ++ s ++ "...") ≠ "no user email found in state." := by
  intro h
  have hdata : ("Sent email to " ++ s ++ "...").data =
      ("no user email found in state." : String).data := by rw [h]
  rw [String.data_append, String.data_append] at hdata
  have hhead := congrArg List.head? hdata
  simp [String.data_append] at hhead

-- ==========================================================================
-- Claim theorems
-- ==========================================================================

/-- C5: a tool-call request encoding arguments `{a: 2, b: 3}` for the `add`
tool (wrapped with `retryCount = 1`) executed through the Executor yields a
success result with value `5`; and a successful direct call of `add`
returns the sum `a + b` unchanged. -/
theorem add_round_trip :
    (Executor.mk [addTool] [] false 1 false).execute
        [⟨"call_1", "add", Except.ok [("a", Val.vInt 2), ("b", Val.vInt 3)]⟩] =
      Except.ok [⟨"call_1", "add", ToolCallOutcome.success (Val.vInt 5)⟩] ∧
    ∀ a b : Int, add a b = a + b :=
  ⟨rfl, fun _ _ => rfl⟩

/-- C6: the state-injected tool `get_user_email`, invoked with the empty
state mapping, returns the default sentinel `"unknown"` (it cannot fail:
it is a total function of the state); when the state maps `"user_email"`
to a value, it returns that value. -/
theorem get_user_email_default :
    get_user_email [] = Val.vStr "unknown" ∧
    ∀ (state : PyDict) (v : Val), pyGet state "user_email" = some v →
      get_user_email state = v := by
  refine ⟨rfl, ?_⟩
  intro state v h
  simp [get_user_email, h]

/-- Witness for C6 at the test module's concrete state. -/
theorem get_user_email_default_witness :
    get_user_email [("user_email", Val.vStr "test@example.com")] =
      Val.vStr "test@example.com" :=
  get_user_email_default.2 _ _ rfl

/-- C3: calling the sync entry point on an async-configured Executor, and
calling the async entry point on a sync-configured one, fails immediately
with the usage error for every response argument; no ToolCallResult list
is produced and nothing is retried. -/
theorem wrong_mode_usage_error (ex : Executor) (reqs : List ToolCallRequest)
    (order : List Nat) :
    (ex.isAsync = true → ex.execute reqs = Except.error UsageError.wrongMode) ∧
    (ex.isAsync = false → ex.aexecuteWith reqs order = Except.error UsageError.wrongMode) := by
  constructor <;> intro h <;> simp [Executor.execute, Executor.aexecuteWith, h]

/-- Witness for C3 at concrete Executors of each mode. -/
theorem wrong_mode_usage_error_witness :
    (Executor.mk [] [] false 1 true).execute [] = Except.error UsageError.wrongMode ∧
    (Executor.mk [] [] false 1 false).aexecuteWith [] [] =
      Except.error UsageError.wrongMode :=
  ⟨(wrong_mode_usage_error (Executor.mk [] [] false 1 true) [] []).1 rfl,
   (wrong_mode_usage_error (Executor.mk [] [] false 1 false) [] []).2 rfl⟩

/-- C4: for every numerator `a`, the `divide` tool called with `b = 0`
through `execute` yields an `ExecutionError` result carrying the division-
by-zero message, with no exception reaching the caller (`execute` returns
`Except.ok`); only the direct call `divide a 0` propagates the underlying
`ValueError`. -/
theorem divide_by_zero_reported (a : ℚ) :
    divide a 0 = Except.error "Cannot divide by zero" ∧
    (Executor.mk [divideTool] [] false 1 false).execute
        [⟨"call_1", "divide", Except.ok [("a", Val.vFloat a), ("b", Val.vFloat 0)]⟩] =
      Except.ok [⟨"call_1", "divide",
        ToolCallOutcome.executionError "Cannot divide by zero"⟩] := by
  constructor
  · simp [divide]
  · simp [Executor.execute, Executor.executeCall, Executor.executeCallCount,
      divideTool, runWithRetry, attemptFrom, numericValue, divide, List.lookup,
      Except.map]

/-- C1: for a tool wrapped with `retryCount = n`, a call whose underlying
function fails on every attempt makes exactly `n + 1` invocations of the
underlying function, after which the Executor yields an `ExecutionError`
result (the error is data inside the `Except.ok` result list, not a
raised exception). -/
theorem retry_exhausts_attempts (t : Tool) (args : List (String × Val))
    (hfail : ∀ (i : Nat) (as : List (String × Val)), ∃ e, t.run i as = Except.error e) :
    ((Executor.mk [t] [] false 1 false).executeCallCount
        ⟨"call_1", t.name, Except.ok args⟩).2 = t.retryCount + 1 ∧
    (∃ e, ((Executor.mk [t] [] false 1 false).executeCallCount
        ⟨"call_1", t.name, Except.ok args⟩).1.outcome = ToolCallOutcome.executionError e) ∧
    (Executor.mk [t] [] false 1 false).execute [⟨"call_1", t.name, Except.ok args⟩] =
      Except.ok [((Executor.mk [t] [] false 1 false).executeCallCount
        ⟨"call_1", t.name, Except.ok args⟩).1] := by
  have hfind : ([t].find? (fun u => u.name == t.name)) = some t := by
    simp [List.find?]
  have hargs : ∀ (as : List (String × Val)),
      (runWithRetry t.retryCount (fun a => t.run a as)).2 = t.retryCount + 1 ∧
      ∃ e, (runWithRetry t.retryCount (fun a => t.run a as)).1 = Except.error e := by
    intro as
    exact attemptFrom_fail (fun a => t.run a as) (fun i => hfail i as) t.retryCount 1
  refine ⟨?_, ?_, ?_⟩
  · unfold Executor.executeCallCount
    rw [hfind]
    obtain ⟨hc, e, he⟩ := hargs
      (if t.injectState then ("_injected_state", Val.vDict []) :: args else args)
    simp only [he, hc]
  · unfold Executor.executeCallCount
    rw [hfind]
    obtain ⟨hc, e, he⟩ := hargs
      (if t.injectState then ("_injected_state", Val.vDict []) :: args else args)
    exact ⟨e, by simp only [he]⟩
  · simp [Executor.execute, Executor.executeCall]

/-- Witness for C1 at a concrete always-failing tool with
`retryCount = 1` (the configuration of the `divide` tool): two
invocations, then an `ExecutionError` result. -/
theorem retry_exhausts_attempts_witness :
    ((Executor.mk [Tool.mk "divide" 1 false (fun _ _ => Except.error "Cannot divide by zero")]
        [] false 1 false).executeCallCount
        ⟨"call_1", "divide", Except.ok []⟩).2 = 1 + 1 ∧
    (∃ e, ((Executor.mk [Tool.mk "divide" 1 false (fun _ _ => Except.error "Cannot divide by zero")]
        [] false 1 false).executeCallCount
        ⟨"call_1", "divide", Except.ok []⟩).1.outcome = ToolCallOutcome.executionError e) ∧
    (Executor.mk [Tool.mk "divide" 1 false (fun _ _ => Except.error "Cannot divide by zero")]
        [] false 1 false).execute [⟨"call_1", "divide", Except.ok []⟩] =
      Except.ok [((Executor.mk [Tool.mk "divide" 1 false (fun _ _ => Except.error "Cannot divide by zero")]
        [] false 1 false).executeCallCount ⟨"call_1", "divide", Except.ok []⟩).1] :=
  retry_exhausts_attempts
    (Tool.mk "divide" 1 false (fun _ _ => Except.error "Cannot divide by zero")) []
    (fun _ _ => ⟨"Cannot divide by zero", rfl⟩)

/-- C2: for every response (request list), the collection returned by
`execute`/`aexecute` has exactly one result per request, in the same
order as the requests — for every value of `useParallel` and
independently of the per-call completion order (the abstraction of
per-call latency): slot `j` always holds the result of request `j`. -/
theorem results_in_request_order (ex : Executor) (reqs : List ToolCallRequest)
    (order : List Nat) (hperm : order.Perm (List.range reqs.length)) :
    (ex.isAsync = false → ex.execute reqs = Except.ok (reqs.map ex.executeCall)) ∧
    (ex.isAsync = true → ex.aexecuteWith reqs order =
      Except.ok (reqs.map (fun r => some (ex.executeCall r)))) := by
  constructor
  · intro h
    simp [Executor.execute, h]
  · intro h
    unfold Executor.aexecuteWith
    rw [h]
    simp only [Bool.not_true, Bool.false_eq_true, if_false]
    by_cases hp : ex.useParallel
    · rw [if_pos hp, collectResults_eq_map ex reqs order hperm]
    · rw [if_neg hp, collectResults_eq_map ex reqs (List.range reqs.length) (List.Perm.refl _)]

/-- Witness for C2: two requests on a parallel async Executor whose second
call completes before the first; the result list still follows request
order. -/
theorem results_in_request_order_witness :
    (Executor.mk [addTool] [] true 2 true).aexecuteWith
        [⟨"c1", "add", Except.ok [("a", Val.vInt 1), ("b", Val.vInt 2)]⟩,
         ⟨"c2", "missing", Except.ok []⟩] [1, 0] =
      Except.ok ([⟨"c1", "add", Except.ok [("a", Val.vInt 1), ("b", Val.vInt 2)]⟩,
         ⟨"c2", "missing", Except.ok []⟩].map
        (fun r => some ((Executor.mk [addTool] [] true 2 true).executeCall r))) :=
  (results_in_request_order (Executor.mk [addTool] [] true 2 true)
    [⟨"c1", "add", Except.ok [("a", Val.vInt 1), ("b", Val.vInt 2)]⟩,
     ⟨"c2", "missing", Except.ok []⟩] [1, 0] (by decide)).2 rfl

/-- Branch lemma: empty (or absent) records list. -/
lemma process_eq_noRecords (state : Option (List PyRecord)) (cn op : String)
    (h : state.getD [] = []) :
    process_with_contextual_state state cn op = ProcessResult.noRecords := by
  simp [process_with_contextual_state, h]

/-- Branch lemma: records present but no numeric value under the column. -/
lemma process_eq_noValid (state : Option (List PyRecord)) (cn op : String)
    (h1 : state.getD [] ≠ []) (h2 : columnValues (state.getD []) cn = []) :
    process_with_contextual_state state cn op = ProcessResult.noValidValues cn := by
  have hA : (state.getD []).isEmpty = false := List.isEmpty_eq_false.mpr h1
  simp [process_with_contextual_state, hA, h2]

/-- Branch lemma: the `"min"` case of the dispatch. -/
lemma process_eq_min (state : Option (List PyRecord)) (cn : String)
    (h1 : state.getD [] ≠ []) (h2 : columnValues (state.getD []) cn ≠ []) :
    process_with_contextual_state state cn "min" =
      ProcessResult.aggregate "min" cn (listMin (columnValues (state.getD []) cn)) := by
  have hA : (state.getD []).isEmpty = false := List.isEmpty_eq_false.mpr h1
  have hB : (columnValues (state.getD []) cn).isEmpty = false := List.isEmpty_eq_false.mpr h2
  simp [process_with_contextual_state, hA, hB]

/-- Branch lemma: the `"max"` case of the dispatch. -/
lemma process_eq_max (state : Option (List PyRecord)) (cn : String)
    (h1 : state.getD [] ≠ []) (h2 : columnValues (state.getD []) cn ≠ []) :
    process_with_contextual_state state cn "max" =
      ProcessResult.aggregate "max" cn (listMax (columnValues (state.getD []) cn)) := by
  have hA : (state.getD []).isEmpty = false := List.isEmpty_eq_false.mpr h1
  have hB : (columnValues (state.getD []) cn).isEmpty = false := List.isEmpty_eq_false.mpr h2
  simp [process_with_contextual_state, hA, hB]

/-- Branch lemma: the `"average"` case of the dispatch (the zero-length
guard inside it cannot fire, since the values list was already checked to
be nonempty). -/
lemma process_eq_avg (state : Option (List PyRecord)) (cn : String)
    (h1 : state.getD [] ≠ []) (h2 : columnValues (state.getD []) cn ≠ []) :
    process_with_contextual_state state cn "average" =
      ProcessResult.aggregate "average" cn
        ((columnValues (state.getD []) cn).sum /
          ((columnValues (state.getD []) cn).length : ℚ)) := by
  have hA : (state.getD []).isEmpty = false := List.isEmpty_eq_false.mpr h1
  have hB : (columnValues (state.getD []) cn).isEmpty = false := List.isEmpty_eq_false.mpr h2
  have hC : (columnValues (state.getD []) cn).length ≠ 0 := by
    intro h
    exact h2 (List.length_eq_zero.mp h)
  simp [process_with_contextual_state, hA, hB, hC]

/-- C9: for states of the documented shape and the two literal column
names, `process_with_contextual_state` returns the no-records message when
the records list is absent or empty; the no-valid-values message when no
record holds a numeric value under the column; and otherwise
`aggregate operation column result` where the result is the least element,
the greatest element, or the sum divided by the count, of exactly the
numeric values found under the column. -/
theorem process_aggregation (state : Option (List PyRecord))
    (column_name operation : String)
    (_hcol : column_name = "response_time_ms" ∨ column_name = "num_database_calls")
    (hop : operation = "min" ∨ operation = "max" ∨ operation = "average") :
    (state.getD [] = [] →
      process_with_contextual_state state column_name operation =
        ProcessResult.noRecords) ∧
    (state.getD [] ≠ [] → columnValues (state.getD []) column_name = [] →
      process_with_contextual_state state column_name operation =
        ProcessResult.noValidValues column_name) ∧
    (state.getD [] ≠ [] → columnValues (state.getD []) column_name ≠ [] →
      ((operation = "min" →
        process_with_contextual_state state column_name operation =
          ProcessResult.aggregate "min" column_name
            (listMin (columnValues (state.getD []) column_name)) ∧
        listMin (columnValues (state.getD []) column_name) ∈
          columnValues (state.getD []) column_name ∧
        ∀ v ∈ columnValues (state.getD []) column_name,
          listMin (columnValues (state.getD []) column_name) ≤ v) ∧
      (operation = "max" →
        process_with_contextual_state state column_name operation =
          ProcessResult.aggregate "max" column_name
            (listMax (columnValues (state.getD []) column_name)) ∧
        listMax (columnValues (state.getD []) column_name) ∈
          columnValues (state.getD []) column_name ∧
        ∀ v ∈ columnValues (state.getD []) column_name,
          v ≤ listMax (columnValues (state.getD []) column_name)) ∧
      (operation = "average" →
        process_with_contextual_state state column_name operation =
          ProcessResult.aggregate "average" column_name
            ((columnValues (state.getD []) column_name).sum /
              ((columnValues (state.getD []) column_name).length : ℚ))))) := by
  refine ⟨process_eq_noRecords state column_name operation,
    process_eq_noValid state column_name operation, ?_⟩
  intro h1 h2
  refine ⟨?_, ?_, ?_⟩
  · intro hm
    subst hm
    refine ⟨process_eq_min state column_name h1 h2, ?_, ?_⟩
    · cases hv : columnValues (state.getD []) column_name with
      | nil => exact absurd hv h2
      | cons x xs => rw [listMin]; exact hv ▸ foldl_min_mem xs x
    · intro v hvmem
      cases hv : columnValues (state.getD []) column_name with
      | nil => exact absurd hv h2
      | cons x xs =>
          rw [hv] at hvmem
          rw [listMin]
          exact foldl_min_le xs x v hvmem
  · intro hm
    subst hm
    refine ⟨process_eq_max state column_name h1 h2, ?_, ?_⟩
    · cases hv : columnValues (state.getD []) column_name with
      | nil => exact absurd hv h2
      | cons x xs => rw [listMax]; exact hv ▸ foldl_max_mem xs x
    · intro v hvmem
      cases hv : columnValues (state.getD []) column_name with
      | nil => exact absurd hv h2
      | cons x xs =>
          rw [hv] at hvmem
          rw [listMax]
          exact foldl_max_ge xs x v hvmem
  · intro hm
    subst hm
    exact process_eq_avg state column_name h1 h2

/-- Witness for C9 at the example state of `src/example/main.py`
(restricted to its first two records): the average of
`response_time_ms` over `[120, 30]` is `75`. -/
theorem process_aggregation_witness :
    process_with_contextual_state
        (some [[("response_time_ms", Val.vInt 120), ("num_database_calls", Val.vInt 1)],
               [("response_time_ms", Val.vInt 30), ("num_database_calls", Val.vInt 2)]])
        "response_time_ms" "average" =
      ProcessResult.aggregate "average" "response_time_ms" 75 := by
  have h := (process_aggregation
    (some [[("response_time_ms", Val.vInt 120), ("num_database_calls", Val.vInt 1)],
           [("response_time_ms", Val.vInt 30), ("num_database_calls", Val.vInt 2)]])
    "response_time_ms" "average" (Or.inl rfl) (Or.inr (Or.inr rfl))).2.2
    (by simp) (by simp [columnValues, numericValue, List.lookup]) |>.2.2 rfl
  have hv : columnValues
      ((some [[("response_time_ms", Val.vInt 120), ("num_database_calls", Val.vInt 1)],
              [("response_time_ms", Val.vInt 30), ("num_database_calls", Val.vInt 2)]]).getD [])
      "response_time_ms" = [120, 30] := rfl
  rw [h, hv]
  norm_num

/-- C7: with the operation drawn from the literal type
`{"min", "max", "average"}`, the wildcard branch of the dispatch
(`"Unsupported operation: ..."`) and the `len(values) == 0` guard inside
the `"average"` case (`return 0.0`) are unreachable: the function never
returns either of their outcomes. -/
theorem process_dead_code (state : Option (List PyRecord))
    (column_name operation : String)
    (hop : operation = "min" ∨ operation = "max" ∨ operation = "average") :
    (∀ op, process_with_contextual_state state column_name operation ≠
      ProcessResult.unsupported op) ∧
    process_with_contextual_state state column_name operation ≠
      ProcessResult.zeroAverage := by
  by_cases h1 : state.getD [] = []
  · rw [process_eq_noRecords state column_name operation h1]
    exact ⟨fun op h => ProcessResult.noConfusion h, fun h => ProcessResult.noConfusion h⟩
  · by_cases h2 : columnValues (state.getD []) column_name = []
    · rw [process_eq_noValid state column_name operation h1 h2]
      exact ⟨fun op h => ProcessResult.noConfusion h, fun h => ProcessResult.noConfusion h⟩
    · rcases hop with hm | hm | hm <;> subst hm
      · rw [process_eq_min state column_name h1 h2]
        exact ⟨fun op h => ProcessResult.noConfusion h, fun h => ProcessResult.noConfusion h⟩
      · rw [process_eq_max state column_name h1 h2]
        exact ⟨fun op h => ProcessResult.noConfusion h, fun h => ProcessResult.noConfusion h⟩
      · rw [process_eq_avg state column_name h1 h2]
        exact ⟨fun op h => ProcessResult.noConfusion h, fun h => ProcessResult.noConfusion h⟩

/-- Witness for C7 at a concrete state and the `"min"` operation. -/
theorem process_dead_code_witness :
    (process_with_contextual_state none "response_time_ms" "min" ≠
      ProcessResult.unsupported "min") ∧
    process_with_contextual_state none "response_time_ms" "min" ≠
      ProcessResult.zeroAverage :=
  ⟨(process_dead_code none "response_time_ms" "min" (Or.inl rfl)).1 "min",
   (process_dead_code none "response_time_ms" "min" (Or.inl rfl)).2⟩

/-- C8: `send_email` returns the failure string exactly when the state's
`"user_email"` key is absent or maps to a falsy value (e.g. the empty
string), and otherwise returns the formatted success string; being a total
function of the state, it never raises. -/
theorem send_email_cases (state : PyDict) :
    (send_email state = "no user email found in state." ↔
      (pyGet state "user_email" = none ∨
        ∃ v, pyGet state "user_email" = some v ∧ v.truthy = false)) ∧
    (∀ v, pyGet state "user_email" = some v → v.truthy = true →
      send_email state = "Sent email to " ++ v.pyStr ++ "...") := by
  constructor
  · cases hg : pyGet state "user_email" with
    | none =>
        constructor
        · intro _; exact Or.inl rfl
        · intro _; simp [send_email, hg, Val.truthy]
    | some v =>
        cases hv : v.truthy with
        | false =>
            constructor
            · intro _; exact Or.inr ⟨v, rfl, hv⟩
            · intro _; simp [send_email, hg, hv]
        | true =>
            constructor
            · intro hcontra
              have hs : send_email state = "Sent email to " ++ v.pyStr ++ "..." := by
                simp [send_email, hg, hv]
              rw [hs] at hcontra
              exact absurd hcontra (sent_ne_missing v.pyStr)
            · rintro (hnone | ⟨w, hw, hwt⟩)
              · exact Option.noConfusion hnone
              · rw [Option.some_inj.mp hw] at hv
                rw [hv] at hwt
                exact Bool.noConfusion hwt
  · intro v hg hv
    simp [send_email, hg, hv]

/-- Witness for C8 at the example state of `src/example/main.py`. -/
theorem send_email_cases_witness :
    send_email [("user_email", Val.vStr "user@example.com")] =
      "Sent email to user@example.com..." :=
  (send_email_cases [("user_email", Val.vStr "user@example.com")]).2
    (Val.vStr "user@example.com") rfl rfl

/-- C10 counterexample: the claim that `validate_email` returns True
exactly when the whole string matches the anchored pattern fails at
`"user@example.com\n"`. Python's `$` also matches just before a single
trailing newline, so `validate_email` returns True there although the
whole string does not have the pattern's shape. -/
theorem validate_email_whole_string_counterexample :
    validate_email "user@example.com\n" = true ∧
    ¬ EmailShape ("user@example.com\n" : String).data := by
  constructor
  · rfl
  · intro h
    have hm := (emailMatch_iff (("user@example.com\n" : String).data)).mpr h
    have hf : emailMatch (("user@example.com\n" : String).data) = false := rfl
    rw [hf] at hm
    exact Bool.noConfusion hm

/-- C10 (amended): `validate_email` is a total Boolean function (never
raises) and returns true exactly when the whole string — or the string
with a single trailing newline removed, per Python's `$` semantics —
decomposes as local part, `@`, domain, `.`, TLD with the TLD at least two
letters; in particular `"user@example"` yields false and
`"user@example.com"` yields true. -/
theorem validate_email_characterization :
    (∀ s : String, validate_email s = true ↔
      (EmailShape s.data ∨
        (s.data.getLast? = some '\n' ∧ EmailShape s.data.dropLast))) ∧
    validate_email "user@example" = false ∧
    validate_email "user@example.com" = true := by
  refine ⟨?_, rfl, rfl⟩
  intro s
  unfold validate_email
  rw [Bool.or_eq_true, Bool.and_eq_true]
  constructor
  · rintro (h | ⟨h1, h2⟩)
    · exact Or.inl ((emailMatch_iff _).mp h)
    · exact Or.inr ⟨by simpa using h1, (emailMatch_iff _).mp h2⟩
  · rintro (h | ⟨h1, h2⟩)
    · exact Or.inl ((emailMatch_iff _).mpr h)
    · exact Or.inr ⟨by simpa using h1, (emailMatch_iff _).mpr h2⟩

/-- Witness for C10's amended characterization at a concrete address. -/
theorem validate_email_characterization_witness :
    EmailShape ("user@example.com" : String).data :=
  ((validate_email_characterization.1 "user@example.com").mp rfl).resolve_right
    (fun h => absurd h.1 (by decide))
